import Mathlib

/-!
Verification of the reviewly review-ingestion-and-summarization pipeline.

Shallow embedding of the Python sources:
  * `src/reviewly/github_client.py` — `ReviewData`, `GitHubClient._parse_repo_url`,
    `GitHubClient._load_from_cache`, `GitHubClient.get_pr_reviews`;
  * `src/reviewly/analyzer.py` — `DeepseekAnalyzer._group_reviews_by_pr`,
    `DeepseekAnalyzer._prepare_context`, `DeepseekAnalyzer.analyze_reviews`;
  * `src/reviewly/config.py` — `Config`, `get_config`;
  * `src/main.py` — `main`.

External collaborators (the GitHub REST API, the LLM endpoint, the file
system) are modelled as explicit oracle parameters; the functions of the
repository are translated directly.
-/

/-- `ReviewData` (github_client.py): one inline review comment on a pull
request.  `pr_number` is a Python `int`, modelled as `Int`; `line_number`
is optional. -/
structure ReviewData where
  pr_number : Int
  file_path : String
  code_chunk : String
  review_comment : String
  line_number : Option Int := none
deriving DecidableEq

/-- Python strings are modelled as their character lists (`String.toList`)
inside the URL parser, so that every operation is structurally recursive.
`startsWithL pat l` is Python `l.startswith(pat)`. -/
def startsWithL : List Char → List Char → Bool
  | [], _ => true
  | _ :: _, [] => false
  | p :: ps, a :: as => p == a && startsWithL ps as

/-- Before/after split of `l` at the first occurrence of the non-empty
pattern `pat`; `none` when `pat` does not occur in `l`. -/
def splitFirstL (pat : List Char) : List Char → Option (List Char × List Char)
  | [] => if startsWithL pat [] then some ([], []) else none
  | a :: rest =>
    if startsWithL pat (a :: rest) then some ([], (a :: rest).drop pat.length)
    else
      match splitFirstL pat rest with
      | some (pre, post) => some (a :: pre, post)
      | none => none

/-- Python `pat in s` substring test. -/
def strContains (s pat : String) : Bool :=
  (splitFirstL pat.toList s.toList).isSome

/-- Python `l.split(sep)` for a single-character separator: always at
least one (possibly empty) field. -/
def pySplit (sep : Char) : List Char → List (List Char)
  | [] => [[]]
  | a :: rest =>
    match pySplit sep rest with
    | [] => [[]]
    | w :: ws => if a == sep then [] :: w :: ws else (a :: w) :: ws

/-- Python `s.rstrip('/')`. -/
def rstripSlash (l : List Char) : List Char :=
  (l.reverse.dropWhile (fun c => c == '/')).reverse

/-- Python `s.endswith(pat)`. -/
def endsWithL (pat l : List Char) : Bool :=
  startsWithL pat.reverse l.reverse

/-- A character CPython's `urlsplit` accepts inside a URL scheme
(`scheme_chars`): ASCII letters, digits, `'+'`, `'-'`, `'.'`. -/
def isSchemeChar (c : Char) : Bool :=
  c.isAlphanum || c == '+' || c == '-' || c == '.'

/-- The scheme-detection step of `urlsplit`: at the first `':'`, when the
prefix before it is non-empty, starts with an ASCII letter, and consists
of scheme characters, the (lowercased) prefix is the scheme and parsing
continues after the colon; otherwise there is no scheme.  Returns
`(scheme, remainder)`. -/
def splitSchemeL (s : List Char) : List Char × List Char :=
  match splitFirstL [':'] s with
  | some (pre, post) =>
    match pre with
    | [] => ([], s)
    | c :: cs =>
      if c.isAlpha && cs.all isSchemeChar then ((c :: cs).map Char.toLower, post)
      else ([], s)
  | none => ([], s)

/-- The netloc-removal step of `urlsplit` (`_splitnetloc`): when the
remainder starts with `"//"`, the netloc extends to the first of
`'/'`, `'?'`, `'#'`; the returned remainder starts at that delimiter. -/
def dropNetlocL (s : List Char) : List Char :=
  if startsWithL ['/', '/'] s then
    let rest := s.drop 2
    rest.drop (rest.takeWhile (fun c => c != '/' && c != '?' && c != '#')).length
  else s

/-- The schemes for which `urlparse` splits `;params` off the path
(`uses_params`; the empty scheme is among them). -/
def usesParams : List (List Char) :=
  [[], "ftp".toList, "hdl".toList, "prospero".toList, "http".toList,
   "imap".toList, "https".toList, "shttp".toList, "rtsp".toList,
   "rtspu".toList, "sip".toList, "sips".toList, "mms".toList,
   "sftp".toList, "tel".toList]

/-- `urlparse`'s `_splitparams`, keeping only the path: when the path has
a `'/'`, drop from the first `';'` after the last `'/'` (if any);
otherwise drop from the first `';'`. -/
def splitParamsL (url : List Char) : List Char :=
  if url.contains '/' then
    let seg := (url.reverse.takeWhile (fun c => c != '/')).reverse
    if seg.contains ';' then
      url.take (url.length - seg.length) ++ seg.takeWhile (fun c => c != ';')
    else url
  else url.takeWhile (fun c => c != ';')

/-- The `path` attribute of Python's `urllib.parse.urlparse` (CPython
3.11 `urlsplit` plus `urlparse`'s params split): strip leading C0-control
and space characters, remove every tab/CR/LF, detect a valid `scheme:`,
drop a `//netloc`, cut the fragment (first `'#'`) and query (first
`'?'`), and for a `uses_params` scheme split `;params` off the last path
segment.  Not modelled: the `ValueError`s `urlsplit` itself raises for
mismatched `'['`/`']'` in the netloc — on such inputs the real call
raises where this model returns a path, so the theorems below, which
only ever assert failure, are unaffected. -/
def urlparsePathL (s : List Char) : List Char :=
  let url0 := (s.dropWhile (fun c => decide (c.val ≤ 32))).filter
    (fun c => c != '\t' && c != '\r' && c != '\n')
  let sp := splitSchemeL url0
  let url2 := dropNetlocL sp.2
  let url3 := (url2.takeWhile (fun c => c != '#')).takeWhile (fun c => c != '?')
  if usesParams.contains sp.1 && url3.contains ';' then splitParamsL url3 else url3

/-- The condition of the first branch of `_parse_repo_url`:
`'/' in repo_url and not any(x in repo_url for x in ['http', 'git@'])`. -/
def isShorthandRepo (s : String) : Bool :=
  s.toList.contains '/' && !(strContains s "http") && !(strContains s "git@")

/-- The non-empty path components computed by the URL branch of
`_parse_repo_url`: strip trailing `'/'`, strip a `.git` suffix, split on
`'/'`, keep non-empty parts. -/
def urlPathParts (s : String) : List (List Char) :=
  let path := rstripSlash (urlparsePathL s.toList)
  let path := if endsWithL ".git".toList path then path.take (path.length - 4) else path
  (pySplit '/' path).filter (fun p => !p.isEmpty)

/-- `GitHubClient._parse_repo_url` (github_client.py).  The shorthand
branch returns the last two `'/'`-separated fields with no further
validation (`parts[-2], parts[-1]` on the raw split); the URL branch
requires a non-empty path and at least two non-empty path components.
The final wildcard arms are unreachable and mirror the partiality of the
Python indexing. -/
def parseRepoUrl (repoUrl : String) : Except String (String × String) :=
  if isShorthandRepo repoUrl then
    match (pySplit '/' repoUrl.toList).reverse with
    | b :: a :: _ => .ok (String.mk a, String.mk b)
    | _ => .error ("Invalid repository URL format: " ++ repoUrl)
  else if (urlparsePathL repoUrl.toList).isEmpty then
    .error ("Invalid repository URL format: " ++ repoUrl)
  else
    let parts := urlPathParts repoUrl
    if parts.length < 2 then
      .error ("Invalid repository URL format: " ++ repoUrl)
    else
      match parts.reverse with
      | b :: a :: _ => .ok (String.mk a, String.mk b)
      | _ => .error ("Invalid repository URL format: " ++ repoUrl)

/-- State of the on-disk cache snapshot for `(owner, repo_name)`:
missing file, a file that fails to read/parse, or a parsed record list. -/
inductive CacheState where
  | absent
  | corrupt
  | snapshot (records : List ReviewData)
deriving DecidableEq

/-- `GitHubClient._load_from_cache` (github_client.py): returns the parsed
records, or `none` when the file is missing or unreadable; the second
component records whether the "Failed to load cache" warning was printed. -/
def loadFromCache : CacheState → Option (List ReviewData) × Bool
  | .absent => (none, false)
  | .corrupt => (none, true)
  | .snapshot l => (some l, false)

/-- One inline review comment as delivered by the hosting API
(`comment.path`, `comment.diff_hunk` when present, `comment.body`,
`comment.line` when present). -/
structure PRComment where
  path : String
  diff_hunk : Option String
  body : String
  line : Option Int
deriving DecidableEq

deriving instance DecidableEq for Except

/-- One pull request as delivered by the hosting API: its number and the
outcome of fetching its review comments (`pr.get_review_comments()` either
yields the list or raises). -/
structure PullRequest where
  number : Int
  comments : Except String (List PRComment)
deriving DecidableEq

/-- Construction of a `ReviewData` from one API comment, as in the body of
the inner loop of `get_pr_reviews`: `code_chunk` defaults to `""` when
`diff_hunk` is unavailable, `line_number` to `none`. -/
def recordOfComment (n : Int) (c : PRComment) : ReviewData :=
  { pr_number := n
    file_path := c.path
    code_chunk := c.diff_hunk.getD ""
    review_comment := c.body
    line_number := c.line }

/-- The main loop of `get_pr_reviews` over `pulls[:limit]`: accumulate the
records of each pull request whose comment fetch succeeds; on a failure,
record a warning with the pull request number and continue. -/
def fetchFromNetwork (pulls : List PullRequest) (limit : Nat) :
    List ReviewData × List Int :=
  (pulls.take limit).foldl
    (fun acc pr =>
      match pr.comments with
      | .ok cs => (acc.1 ++ cs.map (recordOfComment pr.number), acc.2)
      | .error _ => (acc.1, acc.2 ++ [pr.number]))
    ([], [])

/-- Observable outcome of one `get_pr_reviews` call: the returned records,
the per-pull-request warnings (by PR number), whether the corrupt-cache
warning fired, whether the network loop ran, and what was written back to
the cache file. -/
structure FetchResult where
  reviews : List ReviewData
  warnings : List Int
  cacheWarning : Bool
  usedNetwork : Bool
  cacheWrite : Option (List ReviewData)
deriving DecidableEq

/-- `GitHubClient.get_pr_reviews` (github_client.py).  `if use_cache:
cached = self._load_from_cache(); if cached: return cached` — note the
Python truthiness test: both `None` and an *empty* cached list fall
through to the network fetch.  The fresh result is saved to the cache. -/
def getPrReviews (pulls : List PullRequest) (cache : CacheState)
    (limit : Nat) (useCache : Bool) : FetchResult :=
  let network := fun (w : Bool) =>
    let fresh := fetchFromNetwork pulls limit
    { reviews := fresh.1
      warnings := fresh.2
      cacheWarning := w
      usedNetwork := true
      cacheWrite := some fresh.1 : FetchResult }
  if useCache then
    match loadFromCache cache with
    | (some cached, w) =>
      if cached.isEmpty then network w
      else
        { reviews := cached
          warnings := []
          cacheWarning := w
          usedNetwork := false
          cacheWrite := none }
    | (none, w) => network w
  else network false

/-- The code-chunk truncation of `DeepseekAnalyzer._prepare_context`
(analyzer.py): `review.code_chunk[:500] + "..." if
len(review.code_chunk) > 500 else review.code_chunk`. -/
def truncateChunk (code : String) : String :=
  if code.length > 500 then code.take 500 ++ "..." else code

/-- The context lines emitted for one record inside
`DeepseekAnalyzer._prepare_context`: file path, the (possibly truncated)
code chunk in a fenced block when non-empty, then the review comment. -/
def contextPartsOfReview (review : ReviewData) : List String :=
  ["File: " ++ review.file_path]
    ++ (if review.code_chunk != "" then
          ["Code:\n```\n" ++ truncateChunk review.code_chunk ++ "\n```"]
        else [])
    ++ ["Review comment: " ++ review.review_comment ++ "\n"]

/-- The context lines emitted for one group inside
`DeepseekAnalyzer._prepare_context`: empty groups are skipped, otherwise a
`PR #<n>:` header (from the first record) followed by each record's lines. -/
def contextPartsOfGroup (group : List ReviewData) : List String :=
  match group with
  | [] => []
  | r :: _ =>
    ("PR #" ++ toString r.pr_number ++ ":") :: (group.map contextPartsOfReview).flatten

/-- `DeepseekAnalyzer._prepare_context` (analyzer.py):
`"\n".join(context_parts)` over all groups of the batch. -/
def prepareContext (prGroups : List (List ReviewData)) : String :=
  String.intercalate "\n" ((prGroups.map contextPartsOfGroup).flatten)

/-- One step of the insertion-ordered Python `dict` built by
`DeepseekAnalyzer._group_reviews_by_pr`: append the record to its key's
list if the key is present, otherwise add a new key at the end. -/
def dictInsert (d : List (Int × List ReviewData)) (r : ReviewData) :
    List (Int × List ReviewData) :=
  if d.any (fun kv => kv.1 == r.pr_number) then
    d.map (fun kv => if kv.1 == r.pr_number then (kv.1, kv.2 ++ [r]) else kv)
  else d ++ [(r.pr_number, [r])]

/-- `DeepseekAnalyzer._group_reviews_by_pr` (analyzer.py):
`list(pr_dict.values())` after inserting every record, where `pr_dict`
is a Python dict and hence iterates keys in insertion order. -/
def groupReviewsByPr (reviews : List ReviewData) : List (List ReviewData) :=
  (reviews.foldl dictInsert []).map Prod.snd

/-- The distinct `pr_number`s of a record list in order of first
occurrence — the key order of the dict built by `_group_reviews_by_pr`. -/
def firstKeys (reviews : List ReviewData) : List Int :=
  reviews.foldl (fun ks r => if r.pr_number ∈ ks then ks else ks ++ [r.pr_number]) []

/-- The batching of `analyze_reviews`: `pr_groups[i:i + batch_size]` for
`i in range(0, len(pr_groups), batch_size)` with `batch_size = 5`,
written as structural recursion taking five elements at a time. -/
def chunksOf5 {α : Type} : List α → List (List α)
  | [] => []
  | a :: b :: c :: d :: e :: rest => [a, b, c, d, e] :: chunksOf5 rest
  | l => [l]

/-- The LLM collaborator at the abstraction the summarizer relies on:
each of the two prompt chains maps a context string to either the reply
text or a failure (`chain.invoke` returning or raising). -/
structure LLM where
  summarizeBatch : String → Except String String
  finalChecklist : String → Except String String

/-- Bool test for the error side of an `Except`. -/
def isError {ε α : Type} : Except ε α → Bool
  | .error _ => true
  | .ok _ => false

/-- The stage-1 loop of `analyze_reviews` over a list of batches: invoke
the summarization chain on each batch's context, keep the successful
replies in batch order, and skip (`continue`) the failed ones. -/
def stage1Summaries (llm : LLM) (batches : List (List (List ReviewData))) :
    List String :=
  batches.filterMap (fun batch => (llm.summarizeBatch (prepareContext batch)).toOption)

/-- The stage-1 summaries produced by `analyze_reviews` for a record list:
group by PR, batch the groups five at a time, summarize each batch. -/
def stage1Of (llm : LLM) (reviews : List ReviewData) : List String :=
  stage1Summaries llm (chunksOf5 (groupReviewsByPr reviews))

/-- Observable outcome of `analyze_reviews`: the returned checklist or the
raised `RuntimeError` message, plus the list of contexts passed to the
stage-2 (final-checklist) chain. -/
structure AnalyzeResult where
  result : Except String String
  stage2Calls : List String
deriving DecidableEq

/-- `DeepseekAnalyzer.analyze_reviews` (analyzer.py): group, batch, map
each batch to a summary (skipping failures), raise when no summary was
produced, otherwise reduce the summaries joined by `"\n\n"` through the
final-checklist chain, wrapping a stage-2 failure.  (The
`RecursiveCharacterTextSplitter` constructed in the source is never used
and is not modelled.) -/
def analyzeReviews (llm : LLM) (reviews : List ReviewData) : AnalyzeResult :=
  let summaries := stage1Of llm reviews
  if summaries.isEmpty then
    { result := .error "Failed to generate any summaries from the reviews"
      stage2Calls := [] }
  else
    let ctx := String.intercalate "\n\n" summaries
    match llm.finalChecklist ctx with
    | .ok content => { result := .ok content, stage2Calls := [ctx] }
    | .error e =>
      { result := .error ("Failed to generate final checklist: " ++ e)
        stage2Calls := [ctx] }

/-- `Config` (config.py): the three required configuration values. -/
structure Config where
  github_token : String
  github_repo_url : String
  deepseek_api_key : String
deriving DecidableEq

/-- The process environment as seen by `get_config`: each variable either
set to a string or absent. -/
structure Env where
  githubToken : Option String
  githubRepoUrl : Option String
  deepseekApiKey : Option String
deriving DecidableEq

/-- `get_config` (config.py): `os.getenv(name, "")` for each field — an
absent variable is silently replaced by the empty string, and construction
of `Config` never fails (every string is a valid `str` field). -/
def getConfig (env : Env) : Config :=
  { github_token := env.githubToken.getD ""
    github_repo_url := env.githubRepoUrl.getD ""
    deepseek_api_key := env.deepseekApiKey.getD "" }

/-- Outcome of the pipeline up to the start of the fetch stage. -/
inductive PreFetchOutcome where
  | configError
  | authError
  | urlError (msg : String)
  | ready (owner repoName : String)
deriving DecidableEq

/-- Bool test for the configuration-error outcome. -/
def isConfigErrorOutcome : PreFetchOutcome → Bool
  | .configError => true
  | _ => false

/-- The pre-fetch stages of the run, as sequenced by `main` and
`GitHubClient.__init__`: load the configuration (which cannot fail), then
authenticate (`self.github.get_user().login`, an exception when the
hosting API rejects the token — `tokenAccepted` is that oracle), then
parse the repository URL.  No step produces a configuration error. -/
def preFetch (env : Env) (tokenAccepted : String → Bool) : PreFetchOutcome :=
  let config := getConfig env
  if tokenAccepted config.github_token then
    match parseRepoUrl config.github_repo_url with
    | .ok (o, r) => .ready o r
    | .error e => .urlError e
  else .authError

/-- Terminal status of one `main` run. -/
inductive MainOutcome where
  | noReviews
  | success
  | errorCaught (msg : String)
deriving DecidableEq

/-- Bool test for the caught-error outcome of `main`. -/
def isErrorOutcome : MainOutcome → Bool
  | .errorCaught _ => true
  | _ => false

/-- Observable outcome of the `try` block of `main`: terminal status, the
argument lists of the calls made to `analyzer.analyze_reviews`, and the
content written to `pr_checklist.md` when the run reaches the write. -/
structure MainResult where
  outcome : MainOutcome
  analyzerCalls : List (List ReviewData)
  written : Option String
deriving DecidableEq

/-- The `try` block of `main` (main.py): fetch (an exception is caught and
reported), return early with "No PR reviews found." when the result list
is empty, otherwise analyze (a raised `RuntimeError` is caught and
reported) and write the checklist with its fixed header to the output
file.  The fetch and the summarizer are oracle parameters. -/
def mainRun (fetch : Except String (List ReviewData))
    (analyze : List ReviewData → Except String String) : MainResult :=
  match fetch with
  | .error e => { outcome := .errorCaught e, analyzerCalls := [], written := none }
  | .ok reviews =>
    if reviews.isEmpty then
      { outcome := .noReviews, analyzerCalls := [], written := none }
    else
      match analyze reviews with
      | .error e =>
        { outcome := .errorCaught e, analyzerCalls := [reviews], written := none }
      | .ok checklist =>
        { outcome := .success
          analyzerCalls := [reviews]
          written := some ("# PR Review Checklist\n\n"
            ++ "This checklist was automatically generated based on recent PR reviews.\n\n"
            ++ checklist) }

/-! ## Shared concrete fixtures -/

/-- A sample API comment with all optional data present. -/
def sampleComment1 : PRComment :=
  { path := "a.py", diff_hunk := some "@@ -1 +1 @@", body := "fix this", line := some 3 }

/-- A sample API comment with the optional data absent. -/
def sampleComment3 : PRComment :=
  { path := "b.py", diff_hunk := none, body := "nit", line := none }

/-- Pull request 1, whose comment fetch succeeds. -/
def samplePull1 : PullRequest := { number := 1, comments := .ok [sampleComment1] }

/-- Pull request 2, whose comment fetch throws. -/
def samplePull2 : PullRequest := { number := 2, comments := .error "boom" }

/-- Pull request 3, whose comment fetch succeeds. -/
def samplePull3 : PullRequest := { number := 3, comments := .ok [sampleComment3] }

/-- A sample review record. -/
def sampleRecord : ReviewData :=
  { pr_number := 1, file_path := "f.py", code_chunk := "", review_comment := "looks good" }

/-- An LLM oracle whose calls all fail. -/
def llmAllFail : LLM :=
  { summarizeBatch := fun _ => .error "rate limited"
    finalChecklist := fun _ => .error "rate limited" }

/-- An LLM oracle whose stage-1 calls all reply `"S"` and whose stage-2
call echoes its context. -/
def llmAllOk : LLM :=
  { summarizeBatch := fun _ => .ok "S", finalChecklist := fun c => .ok c }

/-- Twelve records with twelve distinct `pr_number`s, so grouping yields
twelve one-record groups. -/
def sampleReviews12 : List ReviewData :=
  (List.range 12).map (fun i =>
    { pr_number := Int.ofNat i + 1, file_path := "f.py", code_chunk := ""
      review_comment := "c" })

/-! ## C4 — truncation of code chunks -/

/-- C4: for every `code_chunk` string, serialization truncates a chunk
exceeding 500 characters to its first 500 characters plus the `"..."`
marker, leaves a chunk of at most 500 characters unchanged, and hence is
idempotent on chunks of at most 500 characters. -/
theorem truncateChunk_spec (s : String) :
    (s.length > 500 → truncateChunk s = s.take 500 ++ "...")
    ∧ (s.length ≤ 500 → truncateChunk s = s)
    ∧ (s.length ≤ 500 → truncateChunk (truncateChunk s) = truncateChunk s) := by
  refine ⟨fun h => ?_, fun h => ?_, fun h => ?_⟩
  · simp [truncateChunk, h]
  · simp [truncateChunk, Nat.not_lt.mpr h]
  · have h1 : truncateChunk s = s := by simp [truncateChunk, Nat.not_lt.mpr h]
    rw [h1]
    exact h1

set_option maxRecDepth 4000 in
/-- C4 witness: the theorem applied to a short chunk and to a 501-character
chunk. -/
theorem truncateChunk_spec_witness :
    ("ab".length ≤ 500 ∧ truncateChunk "ab" = "ab")
    ∧ ((String.mk (List.replicate 501 'a')).length > 500
        ∧ truncateChunk (String.mk (List.replicate 501 'a'))
            = (String.mk (List.replicate 501 'a')).take 500 ++ "...") := by
  refine ⟨⟨by decide, (truncateChunk_spec "ab").2.1 (by decide)⟩,
    ⟨by decide, (truncateChunk_spec _).1 (by decide)⟩⟩

/-! ## C9 — empty fetch ends the run early -/

/-- C9: when the fetch returns zero records, `main` ends with the
"No PR reviews found." early return: the status is `noReviews` (not an
error), the summarizer is never invoked, and no output file is written. -/
theorem mainRun_empty_fetch (analyze : List ReviewData → Except String String) :
    mainRun (.ok []) analyze
      = { outcome := .noReviews, analyzerCalls := [], written := none }
    ∧ isErrorOutcome (mainRun (.ok []) analyze).outcome = false :=
  ⟨rfl, rfl⟩

/-! ## C10 — corrupt cache falls back to a fresh fetch -/

/-- C10: a cache file that cannot be read or parsed makes
`_load_from_cache` return `None` with a warning, and `get_pr_reviews`
then performs the fresh network fetch and returns exactly its result —
identical to the result of a run with no cache at all. -/
theorem getPrReviews_corrupt_cache (pulls : List PullRequest) (limit : Nat) :
    loadFromCache .corrupt = (none, true)
    ∧ (getPrReviews pulls .corrupt limit true).reviews = (fetchFromNetwork pulls limit).1
    ∧ (getPrReviews pulls .corrupt limit true).usedNetwork = true
    ∧ (getPrReviews pulls .corrupt limit true).cacheWarning = true
    ∧ (getPrReviews pulls .corrupt limit true).reviews
        = (getPrReviews pulls .absent limit false).reviews :=
  ⟨rfl, rfl, rfl, rfl, rfl⟩

/-! ## C3 — cache hit semantics -/

/-- C3 counterexample: an existing snapshot with an *empty* record set is
not returned — the Python truthiness test `if cached:` treats the empty
list like a missing cache, and the network fetch runs. -/
theorem getPrReviews_empty_snapshot_not_returned :
    (getPrReviews [samplePull1] (.snapshot []) 50 true).usedNetwork = true
    ∧ (getPrReviews [samplePull1] (.snapshot []) 50 true).reviews
        = [recordOfComment 1 sampleComment1]
    ∧ (getPrReviews [samplePull1] (.snapshot []) 50 true).reviews ≠ [] := by
  decide

/-- C3 (amended): when `use_cache` is requested and a snapshot exists that
parses to a *non-empty* record set, that set is returned as is, with no
network fetch, no warnings and no cache write. -/
theorem getPrReviews_cache_hit (pulls : List PullRequest) (limit : Nat)
    (l : List ReviewData) (h : l ≠ []) :
    getPrReviews pulls (.snapshot l) limit true
      = { reviews := l, warnings := [], cacheWarning := false
          usedNetwork := false, cacheWrite := none } := by
  have h' : l.isEmpty = false := by
    cases l with
    | nil => exact absurd rfl h
    | cons a t => rfl
  simp [getPrReviews, loadFromCache, h']

/-- C3 witness: the amended theorem applied to a one-record snapshot. -/
theorem getPrReviews_cache_hit_witness :
    [sampleRecord] ≠ ([] : List ReviewData)
    ∧ getPrReviews [samplePull1] (.snapshot [sampleRecord]) 50 true
        = { reviews := [sampleRecord], warnings := [], cacheWarning := false
            usedNetwork := false, cacheWrite := none } :=
  ⟨by decide, getPrReviews_cache_hit [samplePull1] 50 [sampleRecord] (by decide)⟩

/-! ## C8 — no fail-fast configuration check -/

/-- The environment with every configuration variable absent. -/
def emptyEnv : Env := { githubToken := none, githubRepoUrl := none, deepseekApiKey := none }

/-- C8 counterexample: with every required configuration value absent the
run does not fail with a configuration error — `get_config` succeeds with
empty strings, and (with a hosting API that rejects the empty token) the
failure surfaces as an authentication error during client
initialization. -/
theorem missingConfig_no_configError :
    getConfig emptyEnv
      = { github_token := "", github_repo_url := "", deepseek_api_key := "" }
    ∧ preFetch emptyEnv (fun t => t != "") = .authError
    ∧ isConfigErrorOutcome (preFetch emptyEnv (fun t => t != "")) = false := by
  decide

/-- C8 (amended): `get_config` substitutes the empty string for every
absent value and never fails, so no run produces a configuration error;
when the source-control credential is absent and the hosting API rejects
the empty token, the run fails with an authentication error at client
initialization — before the fetch stage, but not a configuration
error. -/
theorem preFetch_never_configError (env : Env) (tokenAccepted : String → Bool) :
    isConfigErrorOutcome (preFetch env tokenAccepted) = false
    ∧ (env.githubToken = none → tokenAccepted "" = false →
        preFetch env tokenAccepted = .authError) := by
  constructor
  · by_cases h : tokenAccepted (getConfig env).github_token
    · cases hp : parseRepoUrl (getConfig env).github_repo_url with
      | ok p => cases p with
        | mk o r => simp [preFetch, h, hp, isConfigErrorOutcome]
      | error e => simp [preFetch, h, hp, isConfigErrorOutcome]
    · simp [preFetch, h, isConfigErrorOutcome]
  · intro h1 h2
    have ht : (getConfig env).github_token = "" := by simp [getConfig, h1]
    simp [preFetch, ht, h2]

/-- C8 witness: the amended theorem applied to the empty environment and
an oracle rejecting the empty token. -/
theorem preFetch_never_configError_witness :
    emptyEnv.githubToken = none
    ∧ (fun (t : String) => t != "") "" = false
    ∧ preFetch emptyEnv (fun t => t != "") = .authError :=
  ⟨rfl, by decide, (preFetch_never_configError emptyEnv (fun t => t != "")).2 rfl (by decide)⟩

/-! ## C5 — repository identity parsing -/

/-- C5 counterexample: `"/Repo"` has a single path segment, yet parsing
does not fail — it takes the shorthand branch (it contains `'/'` and
neither `"http"` nor `"git@"`), which performs no validation, and returns
an empty owner. -/
theorem parseRepoUrl_single_segment_ok :
    isShorthandRepo "/Repo" = true
    ∧ ((pySplit '/' "/Repo".toList).filter (fun p => !p.isEmpty)).length = 1
    ∧ parseRepoUrl "/Repo" = .ok ("", "Repo") := by
  decide

/-- C5 (amended): `"https://host/Owner/Repo.git"`,
`"https://host/Owner/Repo"` and `"Owner/Repo"` all parse to
`(owner := "Owner", repo_name := "Repo")` with case preserved, and every
input handled by the full-URL branch whose processed path has fewer than
two non-empty segments fails with the format error; an input handled by
the shorthand branch is split without any segment-count validation.  The
two extra concrete conjuncts exercise `urlparse`'s scheme-validity check
(`"http "` is no scheme, so the whole input is the path, three segments)
and a `scheme:` without `"//"` (path `"/Owner"`, one segment, error). -/
theorem parseRepoUrl_spec :
    parseRepoUrl "https://host/Owner/Repo.git" = .ok ("Owner", "Repo")
    ∧ parseRepoUrl "https://host/Owner/Repo" = .ok ("Owner", "Repo")
    ∧ parseRepoUrl "Owner/Repo" = .ok ("Owner", "Repo")
    ∧ parseRepoUrl "http ://host/a" = .ok ("host", "a")
    ∧ isError (parseRepoUrl "http:/Owner") = true
    ∧ (∀ s : String, isShorthandRepo s = false → (urlPathParts s).length < 2 →
        isError (parseRepoUrl s) = true) := by
  refine ⟨by decide, by decide, by decide, by decide, by decide, fun s h1 h2 => ?_⟩
  rw [parseRepoUrl]
  rw [if_neg (by simp [h1])]
  by_cases hp : (urlparsePathL s.toList).isEmpty
  · rw [if_pos hp]; rfl
  · rw [if_neg hp, if_pos h2]; rfl

/-- C5 witness: the universal conjunct applied to `"https://host/Repo"`,
a full-URL input with one path segment. -/
theorem parseRepoUrl_spec_witness :
    isShorthandRepo "https://host/Repo" = false
    ∧ (urlPathParts "https://host/Repo").length < 2
    ∧ isError (parseRepoUrl "https://host/Repo") = true :=
  ⟨by decide, by decide,
    parseRepoUrl_spec.2.2.2.2.2 "https://host/Repo" (by decide) (by decide)⟩

/-! ## C7 — per-pull-request failures are skipped -/

/-- The records contributed by one pull request: its comments' records
when the comment fetch succeeds, nothing when it throws. -/
def prRecords (pr : PullRequest) : List ReviewData :=
  match pr.comments with
  | .ok cs => cs.map (recordOfComment pr.number)
  | .error _ => []

/-- The warning contributed by one pull request: its number when the
comment fetch throws, nothing otherwise. -/
def prFailNum (pr : PullRequest) : Option Int :=
  match pr.comments with
  | .ok _ => none
  | .error _ => some pr.number

/-- The fetch loop, characterized: the records of the successful pull
requests in order, and the numbers of the failing ones in order. -/
theorem fetchFromNetwork_eq (pulls : List PullRequest) (limit : Nat) :
    fetchFromNetwork pulls limit =
      (((pulls.take limit).map prRecords).flatten,
        (pulls.take limit).filterMap prFailNum) := by
  have h : ∀ (ps : List PullRequest) (acc : List ReviewData × List Int),
      ps.foldl
        (fun acc pr =>
          match pr.comments with
          | .ok cs => (acc.1 ++ cs.map (recordOfComment pr.number), acc.2)
          | .error _ => (acc.1, acc.2 ++ [pr.number])) acc
      = (acc.1 ++ (ps.map prRecords).flatten, acc.2 ++ ps.filterMap prFailNum) := by
    intro ps
    induction ps with
    | nil => intro acc; simp
    | cons p t ih =>
      intro acc
      rw [List.foldl_cons]
      cases hc : p.comments with
      | ok cs =>
        rw [ih]
        simp [prRecords, prFailNum, hc]
      | error e =>
        rw [ih]
        simp [prRecords, prFailNum, hc]
  rw [fetchFromNetwork, h (pulls.take limit) ([], [])]
  simp

/-- A pull request whose comment fetch succeeded yields no warning. -/
theorem prFailNum_eq_none {pr : PullRequest} (h : isError pr.comments = false) :
    prFailNum pr = none := by
  cases hc : pr.comments with
  | ok cs => simp [prFailNum, hc]
  | error e => rw [hc] at h; simp [isError] at h

/-- C7: in a fetch run (no usable cache) over pull requests of which
exactly one's comment fetch throws, the run does not abort: the returned
record set is exactly the records of the remaining pull requests in
order, and the one warning recorded is that pull request's number. -/
theorem getPrReviews_skips_failing_pr
    (pulls before after : List PullRequest) (bad : PullRequest)
    (limit : Nat) (u : Bool) (e : String)
    (hsplit : pulls.take limit = before ++ bad :: after)
    (hbad : bad.comments = .error e)
    (hok : ∀ p ∈ before ++ after, isError p.comments = false) :
    (getPrReviews pulls .absent limit u).reviews
      = ((before ++ after).map prRecords).flatten
    ∧ (getPrReviews pulls .absent limit u).warnings = [bad.number] := by
  have hred : getPrReviews pulls .absent limit u
      = { reviews := (fetchFromNetwork pulls limit).1
          warnings := (fetchFromNetwork pulls limit).2
          cacheWarning := false, usedNetwork := true
          cacheWrite := some (fetchFromNetwork pulls limit).1 } := by
    cases u <;> rfl
  rw [hred, fetchFromNetwork_eq, hsplit]
  constructor
  · simp [prRecords, hbad]
  · have h1 : before.filterMap prFailNum = [] := by
      rw [List.filterMap_eq_nil_iff]
      intro p hp
      exact prFailNum_eq_none (hok p (List.mem_append_left _ hp))
    have h2 : after.filterMap prFailNum = [] := by
      rw [List.filterMap_eq_nil_iff]
      intro p hp
      exact prFailNum_eq_none (hok p (List.mem_append_right _ hp))
    simp [h1, h2, prFailNum, hbad]

/-- C7 witness: three pull requests of which the second throws — the
result holds the comments of the first and third only, and the warning
names the second. -/
theorem getPrReviews_skips_failing_pr_witness :
    (getPrReviews [samplePull1, samplePull2, samplePull3] .absent 50 true).reviews
      = [recordOfComment 1 sampleComment1, recordOfComment 3 sampleComment3]
    ∧ (getPrReviews [samplePull1, samplePull2, samplePull3] .absent 50 true).warnings
      = [2] := by
  have h := getPrReviews_skips_failing_pr [samplePull1, samplePull2, samplePull3]
    [samplePull1] [samplePull3] samplePull2 50 true "boom" (by decide) (by decide)
    (by decide)
  exact ⟨h.1.trans (by decide), h.2.trans (by decide)⟩

/-! ## C1 — summarization failure semantics -/

/-- C1: `analyze_reviews` fails if and only if stage 1 produced zero batch
summaries or the stage-2 reduce call fails; with zero summaries stage 2 is
never invoked; zero summaries means every stage-1 batch failed; and a
failing batch is skipped, processing continuing with the later batches. -/
theorem analyzeReviews_error_iff (llm : LLM) (reviews : List ReviewData) :
    (isError (analyzeReviews llm reviews).result = true ↔
      (stage1Of llm reviews = []
        ∨ isError (llm.finalChecklist
            (String.intercalate "\n\n" (stage1Of llm reviews))) = true))
    ∧ (stage1Of llm reviews = [] → (analyzeReviews llm reviews).stage2Calls = [])
    ∧ (stage1Of llm reviews = [] ↔
        ∀ b ∈ chunksOf5 (groupReviewsByPr reviews),
          isError (llm.summarizeBatch (prepareContext b)) = true)
    ∧ (∀ (b : List (List ReviewData)) (bs : List (List (List ReviewData))),
        isError (llm.summarizeBatch (prepareContext b)) = true →
          stage1Summaries llm (b :: bs) = stage1Summaries llm bs) := by
  refine ⟨?_, fun hs => ?_, ?_, fun b bs hb => ?_⟩
  · by_cases hs : stage1Of llm reviews = []
    · simp [analyzeReviews, hs, isError]
    · have hs' : (stage1Of llm reviews).isEmpty = false := by
        simpa [List.isEmpty_iff] using hs
      cases hf : llm.finalChecklist (String.intercalate "\n\n" (stage1Of llm reviews)) with
      | ok c => simp [analyzeReviews, hs', hf, isError, hs]
      | error e => simp [analyzeReviews, hs', hf, isError]
  · simp [analyzeReviews, hs]
  · rw [stage1Of, stage1Summaries, List.filterMap_eq_nil_iff]
    refine forall_congr' fun b => imp_congr_right fun _ => ?_
    cases h : llm.summarizeBatch (prepareContext b) <;> simp [Except.toOption, isError]
  · have hn : (llm.summarizeBatch (prepareContext b)).toOption = none := by
      cases h : llm.summarizeBatch (prepareContext b) with
      | ok c => rw [h] at hb; simp [isError] at hb
      | error e => simp [Except.toOption]
    simp [stage1Summaries, List.filterMap_cons, hn]

/-- C1 witness: an LLM whose calls all fail, on a one-record input — no
summaries, and stage 2 is never invoked. -/
theorem analyzeReviews_error_iff_witness :
    stage1Of llmAllFail [sampleRecord] = []
    ∧ (analyzeReviews llmAllFail [sampleRecord]).stage2Calls = [] :=
  ⟨by decide, (analyzeReviews_error_iff llmAllFail [sampleRecord]).2.1 (by decide)⟩

/-! ## C6 — batching and the stage-2 call -/

/-- Unfolding of the batching when at least five groups remain. -/
theorem chunksOf5_eq_cons {α : Type} :
    ∀ l : List α, 5 ≤ l.length → chunksOf5 l = l.take 5 :: chunksOf5 (l.drop 5)
  | a :: b :: c :: d :: e :: rest, _ => rfl
  | [], h => by simp at h
  | [a], h => by simp at h
  | [a, b], h => by simp at h
  | [a, b, c], h => by simp at h
  | [a, b, c, d], h => by simp at h

/-- A final short (but non-empty) remainder forms a single batch. -/
theorem chunksOf5_eq_single {α : Type} :
    ∀ l : List α, l ≠ [] → l.length ≤ 5 → chunksOf5 l = [l]
  | [], h1, _ => absurd rfl h1
  | [a], _, _ => rfl
  | [a, b], _, _ => rfl
  | [a, b, c], _, _ => rfl
  | [a, b, c, d], _, _ => rfl
  | [a, b, c, d, e], _, _ => rfl
  | a :: b :: c :: d :: e :: f :: rest, _, h2 => by simp at h2

/-- A list matching no five-element-cons pattern has at most 4 elements. -/
theorem length_le_four_of_no_five {α : Type} :
    ∀ l : List α, (∀ (a b c d e : α) (rest : List α),
      l ≠ a :: b :: c :: d :: e :: rest) → l.length ≤ 4
  | [], _ => by simp
  | [a], _ => by simp
  | [a, b], _ => by simp
  | [a, b, c], _ => by simp
  | [a, b, c, d], _ => by simp
  | a :: b :: c :: d :: e :: rest, h => absurd rfl (h a b c d e rest)

/-- Rejoining the batches of five restores the group list. -/
theorem chunksOf5_join {α : Type} (l : List α) : (chunksOf5 l).flatten = l := by
  induction l using chunksOf5.induct with
  | case1 => rfl
  | case2 a b c d e rest ih => simp [chunksOf5, ih]
  | case3 l h1 h2 => simp [chunksOf5, h1, h2]

/-- Every batch of five is non-empty and holds at most five groups. -/
theorem chunksOf5_batch_size {α : Type} (l : List α) :
    ∀ b ∈ chunksOf5 l, b ≠ [] ∧ b.length ≤ 5 := by
  induction l using chunksOf5.induct with
  | case1 => simp [chunksOf5]
  | case2 a b c d e rest ih =>
    intro x hx
    rw [chunksOf5] at hx
    rcases List.mem_cons.mp hx with h | h
    · subst h; exact ⟨by simp, by simp⟩
    · exact ih x h
  | case3 l h1 h2 =>
    intro x hx
    rw [chunksOf5_eq_single l h1
      (Nat.le_trans (length_le_four_of_no_five l h2) (by omega))] at hx
    rw [List.mem_singleton] at hx
    subst hx
    exact ⟨h1, Nat.le_trans (length_le_four_of_no_five x h2) (by omega)⟩

/-- Every batch but the last holds exactly five groups. -/
theorem chunksOf5_dropLast {α : Type} (l : List α) :
    ∀ b ∈ (chunksOf5 l).dropLast, b.length = 5 := by
  induction l using chunksOf5.induct with
  | case1 => simp [chunksOf5]
  | case2 a b c d e rest ih =>
    intro x hx
    rw [chunksOf5] at hx
    cases hr : chunksOf5 rest with
    | nil => rw [hr] at hx; simp at hx
    | cons y ys =>
      rw [hr] at hx
      rw [List.dropLast_cons_of_ne_nil (by simp)] at hx
      rcases List.mem_cons.mp hx with h | h
      · subst h; rfl
      · exact ih x (by rw [hr]; exact h)
  | case3 l h1 h2 =>
    intro x hx
    rw [chunksOf5_eq_single l h1
      (Nat.le_trans (length_le_four_of_no_five l h2) (by omega))] at hx
    simp at hx

/-- Twelve groups batch as three batches of sizes 5, 5 and 2. -/
theorem chunksOf5_twelve {α : Type} (l : List α) (h : l.length = 12) :
    (chunksOf5 l).map List.length = [5, 5, 2] := by
  have hd5 : (l.drop 5).length = 7 := by simp [h]
  have hd10 : ((l.drop 5).drop 5).length = 2 := by simp [h]
  have e1 : chunksOf5 l = l.take 5 :: chunksOf5 (l.drop 5) :=
    chunksOf5_eq_cons l (by omega)
  have e2 : chunksOf5 (l.drop 5) = (l.drop 5).take 5 :: chunksOf5 ((l.drop 5).drop 5) :=
    chunksOf5_eq_cons _ (by omega)
  have e3 : chunksOf5 ((l.drop 5).drop 5) = [(l.drop 5).drop 5] := by
    refine chunksOf5_eq_single _ (fun hc => ?_) (by omega)
    rw [hc] at hd10
    simp at hd10
  rw [e1, e2, e3]
  simp [List.length_take, h, hd5, hd10]

/-- C6: stage 1 partitions the ordered groups into consecutive batches of
five (non-empty, at most five each, exactly five except possibly the
last, rejoining to the original list; twelve groups give batches of sizes
5, 5, 2), and whenever stage 1 produced at least one summary, stage 2 is
invoked exactly once, with the successful batch summaries joined in
original batch order by blank lines. -/
theorem analyzeReviews_batching :
    (∀ groups : List (List ReviewData),
        (chunksOf5 groups).flatten = groups
        ∧ (∀ b ∈ chunksOf5 groups, b ≠ [] ∧ b.length ≤ 5)
        ∧ (∀ b ∈ (chunksOf5 groups).dropLast, b.length = 5))
    ∧ (∀ groups : List (List ReviewData), groups.length = 12 →
        (chunksOf5 groups).map List.length = [5, 5, 2])
    ∧ (∀ (llm : LLM) (reviews : List ReviewData),
        stage1Of llm reviews ≠ [] →
        (analyzeReviews llm reviews).stage2Calls
          = [String.intercalate "\n\n" (stage1Of llm reviews)]) := by
  refine ⟨fun groups => ⟨chunksOf5_join groups, chunksOf5_batch_size groups,
    chunksOf5_dropLast groups⟩, fun groups h => chunksOf5_twelve groups h,
    fun llm reviews h => ?_⟩
  have hs' : (stage1Of llm reviews).isEmpty = false := by
    simpa [List.isEmpty_iff] using h
  cases hf : llm.finalChecklist (String.intercalate "\n\n" (stage1Of llm reviews)) with
  | ok c => simp [analyzeReviews, hs', hf]
  | error e => simp [analyzeReviews, hs', hf]

/-- C6 witness: twelve one-record groups batch as 5/5/2, and with an
all-succeeding LLM the single stage-2 context joins the three batch
summaries with blank lines. -/
theorem analyzeReviews_batching_witness :
    (groupReviewsByPr sampleReviews12).length = 12
    ∧ (chunksOf5 (groupReviewsByPr sampleReviews12)).map List.length = [5, 5, 2]
    ∧ (analyzeReviews llmAllOk sampleReviews12).stage2Calls = ["S\n\nS\n\nS"] := by
  refine ⟨by decide, analyzeReviews_batching.2.1 _ (by decide), ?_⟩
  have h := analyzeReviews_batching.2.2 llmAllOk sampleReviews12 (by decide)
  exact h.trans (by decide)

/-! ## C2 — grouping by pull request -/

/-- One step of key collection appended at the end. -/
theorem firstKeys_append (l : List ReviewData) (r : ReviewData) :
    firstKeys (l ++ [r]) =
      if r.pr_number ∈ firstKeys l then firstKeys l
      else firstKeys l ++ [r.pr_number] := by
  simp [firstKeys, List.foldl_append]

/-- Membership in the collected keys, with a generalized accumulator. -/
theorem mem_firstKeys_aux (l : List ReviewData) :
    ∀ (ks : List Int) (n : Int),
      n ∈ l.foldl
        (fun ks r => if r.pr_number ∈ ks then ks else ks ++ [r.pr_number]) ks
      ↔ n ∈ ks ∨ ∃ r ∈ l, r.pr_number = n := by
  induction l with
  | nil => simp
  | cons p t ih =>
    intro ks n
    rw [List.foldl_cons, ih]
    by_cases hp : p.pr_number ∈ ks
    · rw [if_pos hp]
      constructor
      · rintro (h | h)
        · exact Or.inl h
        · exact Or.inr ⟨h.choose, List.mem_cons_of_mem p h.choose_spec.1, h.choose_spec.2⟩
      · rintro (h | ⟨r, hr, hrn⟩)
        · exact Or.inl h
        · rcases List.mem_cons.mp hr with rfl | hr'
          · exact Or.inl (hrn ▸ hp)
          · exact Or.inr ⟨r, hr', hrn⟩
    · rw [if_neg hp]
      constructor
      · rintro (h | h)
        · rcases List.mem_append.mp h with h' | h'
          · exact Or.inl h'
          · exact Or.inr ⟨p, List.mem_cons_self p t, (List.mem_singleton.mp h').symm⟩
        · exact Or.inr ⟨h.choose, List.mem_cons_of_mem p h.choose_spec.1, h.choose_spec.2⟩
      · rintro (h | ⟨r, hr, hrn⟩)
        · exact Or.inl (List.mem_append_left _ h)
        · rcases List.mem_cons.mp hr with rfl | hr'
          · exact Or.inl (List.mem_append_right _ (List.mem_singleton.mpr hrn.symm))
          · exact Or.inr ⟨r, hr', hrn⟩

/-- The collected keys are exactly the `pr_number`s present in the input. -/
theorem mem_firstKeys (l : List ReviewData) (n : Int) :
    n ∈ firstKeys l ↔ n ∈ l.map (fun r => r.pr_number) := by
  rw [firstKeys, mem_firstKeys_aux]
  simp

/-- The collected keys are distinct. -/
theorem firstKeys_nodup (l : List ReviewData) : (firstKeys l).Nodup := by
  have h : ∀ (ks : List Int), ks.Nodup →
      (l.foldl (fun ks r => if r.pr_number ∈ ks then ks else ks ++ [r.pr_number]) ks).Nodup := by
    induction l with
    | nil => intro ks hks; simpa using hks
    | cons p t ih =>
      intro ks hks
      rw [List.foldl_cons]
      by_cases hp : p.pr_number ∈ ks
      · rw [if_pos hp]; exact ih ks hks
      · rw [if_neg hp]
        exact ih _ (by simp [List.nodup_append, hks, hp])
  exact h [] List.nodup_nil

/-- The insertion-ordered dict built by `_group_reviews_by_pr`,
characterized: one entry per first-encountered key, each holding the
input's records with that key, in input order. -/
theorem groupDict_eq (l : List ReviewData) :
    l.foldl dictInsert [] =
      (firstKeys l).map (fun k => (k, l.filter (fun x => x.pr_number == k))) := by
  induction l using List.reverseRecOn with
  | nil => rfl
  | append_singleton t r ih =>
    rw [List.foldl_append, List.foldl_cons, List.foldl_nil, ih, firstKeys_append]
    by_cases hp : r.pr_number ∈ firstKeys t
    · rw [if_pos hp, dictInsert]
      have hany : (((firstKeys t).map
          (fun k => (k, t.filter (fun x => x.pr_number == k)))).any
            (fun kv => kv.1 == r.pr_number)) = true := by
        rw [List.any_eq_true]
        exact ⟨(r.pr_number, t.filter (fun x => x.pr_number == r.pr_number)),
          List.mem_map_of_mem _ hp, by simp⟩
      rw [if_pos hany, List.map_map]
      apply List.map_congr_left
      intro k hk
      simp only [Function.comp]
      by_cases hkr : k = r.pr_number
      · subst hkr
        simp [List.filter_append]
      · have h1 : (k == r.pr_number) = false := by simp [hkr]
        have h2 : (r.pr_number == k) = false := by simp [Ne.symm hkr]
        simp [List.filter_append, h1, h2]
    · rw [if_neg hp, dictInsert]
      have hmem : ∀ x ∈ t, x.pr_number ≠ r.pr_number := by
        intro x hx hc
        exact hp ((mem_firstKeys t r.pr_number).mpr
          (hc ▸ List.mem_map_of_mem _ hx))
      have hany : (((firstKeys t).map
          (fun k => (k, t.filter (fun x => x.pr_number == k)))).any
            (fun kv => kv.1 == r.pr_number)) = false := by
        rw [List.any_eq_false]
        intro kv hkv
        rcases List.mem_map.mp hkv with ⟨k, hk, rfl⟩
        simp only [beq_iff_eq]
        rintro rfl
        exact hp hk
      rw [if_neg (by simp [hany]), List.map_append]
      congr 1
      · apply List.map_congr_left
        intro k hk
        have hkr : r.pr_number ≠ k := by
          rintro rfl
          exact hp hk
        have h2 : (r.pr_number == k) = false := by simp [hkr]
        simp [List.filter_append, h2]
      · have hnil : t.filter (fun x => x.pr_number == r.pr_number) = [] := by
          rw [List.filter_eq_nil_iff]
          intro x hx
          simp [hmem x hx]
        simp [List.filter_append, hnil]

/-- `_group_reviews_by_pr`, characterized: for each distinct `pr_number`
in first-encounter order, the sublist of records with that number. -/
theorem groupReviewsByPr_eq (l : List ReviewData) :
    groupReviewsByPr l
      = (firstKeys l).map (fun k => l.filter (fun x => x.pr_number == k)) := by
  rw [groupReviewsByPr, groupDict_eq, List.map_map]
  rfl

/-- The collected keys are ordered by the position of their first
occurrence in the input. -/
theorem firstKeys_pairwise (l : List ReviewData) :
    (firstKeys l).Pairwise (fun a b =>
      (l.map (fun r => r.pr_number)).indexOf a
        < (l.map (fun r => r.pr_number)).indexOf b) := by
  induction l using List.reverseRecOn with
  | nil => simp [firstKeys]
  | append_singleton t r ih =>
    rw [firstKeys_append]
    have hmap : (t ++ [r]).map (fun x => x.pr_number)
        = t.map (fun x => x.pr_number) ++ [r.pr_number] := by simp
    by_cases hp : r.pr_number ∈ firstKeys t
    · rw [if_pos hp, hmap]
      exact ih.imp_of_mem (fun {a b} ha hb hr => by
        rw [List.indexOf_append_of_mem ((mem_firstKeys t a).mp ha),
          List.indexOf_append_of_mem ((mem_firstKeys t b).mp hb)]
        exact hr)
    · rw [if_neg hp, hmap, List.pairwise_append]
      refine ⟨ih.imp_of_mem (fun {a b} ha hb hr => by
        rw [List.indexOf_append_of_mem ((mem_firstKeys t a).mp ha),
          List.indexOf_append_of_mem ((mem_firstKeys t b).mp hb)]
        exact hr), List.pairwise_singleton _ _, ?_⟩
      intro a ha b hb
      rw [List.mem_singleton] at hb
      subst hb
      have ha' := (mem_firstKeys t a).mp ha
      have hnr : r.pr_number ∉ t.map (fun x => x.pr_number) := fun hc =>
        hp ((mem_firstKeys t _).mpr hc)
      rw [List.indexOf_append_of_mem ha', List.indexOf_append_of_not_mem hnr]
      have h1 : List.indexOf a (t.map fun x => x.pr_number)
          < (t.map fun x => x.pr_number).length :=
        List.indexOf_lt_length.mpr ha'
      simp only [List.indexOf_cons_self]
      omega

/-- Summed over a duplicate-free list of keys covering every record,
the per-key filters exhaust the input. -/
theorem length_join_filter (ks : List Int) :
    ∀ l : List ReviewData, ks.Nodup → (∀ x ∈ l, x.pr_number ∈ ks) →
      ((ks.map (fun k => l.filter (fun x => x.pr_number == k))).flatten).length
        = l.length := by
  induction ks with
  | nil =>
    intro l _ hcov
    cases l with
    | nil => rfl
    | cons a t => exact absurd (hcov a (List.mem_cons_self a t)) (List.not_mem_nil _)
  | cons k ks ih =>
    intro l hnd hcov
    rw [List.map_cons, List.flatten_cons, List.length_append]
    have hk_not_mem : k ∉ ks := (List.nodup_cons.mp hnd).1
    have hlen : (l.filter (fun x => x.pr_number == k)).length
        + (l.filter (fun x => !(x.pr_number == k))).length = l.length := by
      have h := (List.filter_append_perm (fun x => x.pr_number == k) l).length_eq
      simpa [List.length_append] using h
    have hks : ∀ k' ∈ ks, l.filter (fun x => x.pr_number == k')
        = (l.filter (fun x => !(x.pr_number == k))).filter
            (fun x => x.pr_number == k') := by
      intro k' hk'
      rw [List.filter_filter]
      apply List.filter_congr
      intro x hx
      by_cases hxk' : x.pr_number = k'
      · have hkk' : k' ≠ k := fun hc => hk_not_mem (hc ▸ hk')
        have h3 : (k' == k) = false := beq_eq_false_iff_ne.mpr hkk'
        simp [hxk', h3]
      · simp [hxk']
    have hcov' : ∀ x ∈ l.filter (fun x => !(x.pr_number == k)), x.pr_number ∈ ks := by
      intro x hx
      rcases List.mem_filter.mp hx with ⟨hxl, hxk⟩
      rcases List.mem_cons.mp (hcov x hxl) with h | h
      · rw [h] at hxk; simp at hxk
      · exact h
    rw [List.map_congr_left hks, ih _ (List.nodup_cons.mp hnd).2 hcov']
    omega

/-- C2: grouping produces one group per distinct `pr_number` (the keys
are duplicate-free and exactly the numbers present), in the order in
which each number is first encountered (keys pairwise sorted by index of
first occurrence); each group is the input's sublist of records with that
number, so within-group order matches input order; and flattening the
groups preserves the original record count. -/
theorem groupReviewsByPr_spec (l : List ReviewData) :
    groupReviewsByPr l
      = (firstKeys l).map (fun k => l.filter (fun x => x.pr_number == k))
    ∧ (firstKeys l).Nodup
    ∧ (∀ n : Int, n ∈ firstKeys l ↔ n ∈ l.map (fun r => r.pr_number))
    ∧ (firstKeys l).Pairwise (fun a b =>
        (l.map (fun r => r.pr_number)).indexOf a
          < (l.map (fun r => r.pr_number)).indexOf b)
    ∧ (∀ g ∈ groupReviewsByPr l, g.Sublist l)
    ∧ (groupReviewsByPr l).flatten.length = l.length := by
  have hbridge := groupReviewsByPr_eq l
  refine ⟨hbridge, firstKeys_nodup l, mem_firstKeys l, firstKeys_pairwise l, ?_, ?_⟩
  · intro g hg
    rw [hbridge] at hg
    rcases List.mem_map.mp hg with ⟨k, hk, rfl⟩
    exact List.filter_sublist l
  · rw [hbridge]
    exact length_join_filter (firstKeys l) l (firstKeys_nodup l)
      (fun x hx => (mem_firstKeys l x.pr_number).mpr (List.mem_map_of_mem _ hx))

/-- A record of pull request 2, first in the sample input. -/
def sampleRecA : ReviewData :=
  { pr_number := 2, file_path := "a.py", code_chunk := "", review_comment := "x" }

/-- A record of pull request 1, second in the sample input. -/
def sampleRecB : ReviewData :=
  { pr_number := 1, file_path := "b.py", code_chunk := "", review_comment := "y" }

/-- Another record of pull request 2, third in the sample input. -/
def sampleRecC : ReviewData :=
  { pr_number := 2, file_path := "c.py", code_chunk := "", review_comment := "z" }

/-- C2 witness: on `[A₂, B₁, C₂]` the groups are `[[A₂, C₂], [B₁]]` (group
order 2 before 1, by first encounter) and the PR-2 group is a sublist of
the input. -/
theorem groupReviewsByPr_spec_witness :
    [sampleRecA, sampleRecC].Sublist [sampleRecA, sampleRecB, sampleRecC]
    ∧ groupReviewsByPr [sampleRecA, sampleRecB, sampleRecC]
        = [[sampleRecA, sampleRecC], [sampleRecB]] :=
  ⟨(groupReviewsByPr_spec [sampleRecA, sampleRecB, sampleRecC]).2.2.2.2.1
      [sampleRecA, sampleRecC] (by decide), by decide⟩
